import Mathlib

/-!
Verification of the kjson core (src/value.rs, src/number.rs, src/dict.rs,
src/context.rs, src/stack.rs, src/error.rs) against its specification.

The Rust code is shallowly embedded: byte slices become `List Nat` (each
element a byte value 0..255), `&str` is its UTF-8 byte list, the cursor
(`Context.bytes`) is threaded explicitly as the remaining byte list, and
every parsing subroutine returns a `PResult` that distinguishes the four
observable outcomes of the Rust code: `Ok`, `Err(ParseError)`, a panic
(`unwrap`/`assert_eq!` failure), and non-termination, which the fuel-indexed
embedding reports as `fuelOut` (a run that is `fuelOut` for every fuel amount
is a diverging run of the Rust loop).
-/

namespace Kjson

/-- The error taxonomy of src/error.rs, verbatim. -/
inductive ParseError where
  | ExpectValue
  | InvalidValue
  | RootNotSingular
  | NumberTooBig
  | MissQuotationMark
  | InvalidStringEscape
  | InvalidStringChar
  | InvalidUnicodeHex
  | InvalidUnicodeSurrogate
  | MissCommaOrSquareBracket
  | MissKey
  | MissColon
  | MissCommaOrCurlyBracket
deriving DecidableEq, Repr

/-- src/number.rs `Number`. `Int` carries the exact i64 value (the code only
ever stores values produced by a range-checked i64 parse, so plain `Int` with
an explicit range check at the producer is faithful). `UInt` carries a u64
value. `Float` abstracts the payload of Rust's `f64` by the exact rational
value of the decimal lexeme it was parsed from; the code stores the nearest
double. No theorem in this file depends on the `Float` payload beyond the
variant tag and the finite/overflow decision, which is modelled exactly
(see `rust_parse_f64`). -/
inductive Number where
  | Int : Int → Number
  | UInt : Nat → Number
  | Float : Rat → Number
deriving DecidableEq, Repr

/-- src/value.rs `Value`. `String` is the owned string as its UTF-8 byte list.
`Object(Dict<String, Value>)` is modelled as the key-sorted association list
that the `BTreeMap` inside `Dict` maintains (see `dictInsert`). -/
inductive Value where
  | Null : Value
  | Bool : Bool → Value
  | Number : Number → Value
  | String : List Nat → Value
  | Array : List Value → Value
  | Object : List (List Nat × Value) → Value
deriving Repr

/-- Result of running one embedded Rust subroutine: `ok`/`err` mirror
`Result`, `panic` marks a run that hits `unwrap()` on `None`/`Err` or a
failed `assert_eq!`, and `fuelOut` marks a run whose loop/recursion budget
was exhausted. -/
inductive PResult (α : Type) where
  | ok : α → PResult α
  | err : ParseError → PResult α
  | panic : PResult α
  | fuelOut : PResult α
deriving Repr

/-- Whitespace test of `Value::parse_whitespace`: space, tab, newline, CR. -/
def isWsByte (b : Nat) : Bool := b = 32 || b = 9 || b = 10 || b = 13

/-- ASCII digit test (`u8::is_ascii_digit`). -/
def isDigitByte (b : Nat) : Bool := 48 ≤ b && b ≤ 57

/-- `Value::parse_whitespace`: drop the longest run of leading whitespace
bytes (the Rust loop finds the first non-whitespace index and re-slices;
an all-whitespace input leaves the empty slice). Always returns `Ok(())`
in the source, so it is a pure function here. -/
def parse_whitespace (bytes : List Nat) : List Nat := bytes.dropWhile isWsByte

/-- `Value::check_literal`: the input must start with the literal bytes,
which are then consumed; otherwise `InvalidValue`. -/
def check_literal (bytes lit : List Nat) : PResult (List Nat) :=
  if bytes.take lit.length = lit then .ok (bytes.drop lit.length)
  else .err .InvalidValue

/-- strNull, strTrue, strFalse: the byte sequences "null", "true", "false". -/
def strNull : List Nat := [110, 117, 108, 108]

/-- Bytes of "true". -/
def strTrue : List Nat := [116, 114, 117, 101]

/-- Bytes of "false". -/
def strFalse : List Nat := [102, 97, 108, 115, 101]

/-- `Value::parse_literal`. `bytes.first().unwrap()` panics on empty input
(the caller guarantees non-emptiness). -/
def parse_literal (bytes : List Nat) : PResult (Value × List Nat) :=
  match bytes.head? with
  | none => .panic
  | some b =>
    if b = 110 then
      match check_literal bytes strNull with
      | .ok rest => .ok (.Null, rest)
      | .err e => .err e
      | .panic => .panic
      | .fuelOut => .fuelOut
    else if b = 116 then
      match check_literal bytes strTrue with
      | .ok rest => .ok (.Bool true, rest)
      | .err e => .err e
      | .panic => .panic
      | .fuelOut => .fuelOut
    else if b = 102 then
      match check_literal bytes strFalse with
      | .ok rest => .ok (.Bool false, rest)
      | .err e => .err e
      | .panic => .panic
      | .fuelOut => .fuelOut
    else .err .InvalidValue

/-- `Value::skip_following_digits`: number of consecutive ASCII digits
starting at index `start` (0 when `start` is past the end). -/
def skip_following_digits (bytes : List Nat) (start : Nat) : Nat :=
  if start ≥ bytes.length then 0
  else ((bytes.drop start).takeWhile isDigitByte).length

/-- Decimal value of a digit-byte list (most significant first), as the
accumulation loop of Rust's integer parsing computes it. -/
def digitsVal (ds : List Nat) : Nat := ds.foldl (fun acc b => acc * 10 + (b - 48)) 0

/-- Rust `str::parse::<i64>` on a lexeme: optional sign, then one or more
digits; the accumulated value must fit the signed 64-bit range, otherwise
the parse reports an overflow error (`none`). -/
def rust_parse_i64 (bs : List Nat) : Option Int :=
  match bs with
  | [] => none
  | b :: r =>
    let ds := if b = 45 ∨ b = 43 then r else b :: r
    if ds = [] ∨ ¬ (ds.all isDigitByte) then none
    else
      let v : Int := if b = 45 then -(digitsVal ds : Int) else (digitsVal ds : Int)
      if -(2 ^ 63) ≤ v ∧ v ≤ 2 ^ 63 - 1 then some v else none

/-- The `[eE] [+-]? digits` exponent suffix of a float lexeme: scales the
already-accumulated signed mantissa by the power of ten it denotes, and
rejects a malformed or over-long suffix. -/
def lexemeExpPart (sgn mval : Rat) (bs5 : List Nat) : Option Rat :=
  let erest := if bs5.headD 0 = 45 ∨ bs5.headD 0 = 43 then bs5.drop 1 else bs5
  let epart := erest.takeWhile isDigitByte
  if epart = [] ∨ erest.drop epart.length ≠ [] then none
  else
    let scale : Rat := (10 : Rat) ^ digitsVal epart
    some (if bs5.headD 0 = 45 then sgn * mval / scale else sgn * mval * scale)

/-- Exact rational value of a decimal float lexeme of the shape
`-? digits (. digits)? ([eE] [+-]? digits)?` — the only shapes
`Value::parse_number` ever passes to `str::parse::<f64>`. Returns `none`
when the bytes do not have that shape (Rust would also accept a few other
shapes such as `inf`, but they are unreachable from `parse_number`). The
sign tests and the exponent suffix (factored into `lexemeExpPart` above)
are written as head-byte tests, the same case split the `match`es on the
lexeme perform. -/
def lexemeRat (bs : List Nat) : Option Rat :=
  match bs with
  | [] => none
  | b0 :: r0 =>
    let bs1 := if b0 = 45 then r0 else b0 :: r0
    let ipart := bs1.takeWhile isDigitByte
    if ipart = [] then none
    else
    let bs2 := bs1.drop ipart.length
    let sgn : Rat := if b0 = 45 then -1 else 1
    let ival : Rat := (digitsVal ipart : Nat)
    if bs2 = [] then some (sgn * ival)
    else if bs2.headD 0 = 46 then
      let bs3 := bs2.drop 1
      let fpart := bs3.takeWhile isDigitByte
      if fpart = [] then none
      else
      let bs4 := bs3.drop fpart.length
      let mval : Rat := ival + (digitsVal fpart : Nat) / (10 : Rat) ^ fpart.length
      if bs4 = [] then some (sgn * mval)
      else if bs4.headD 0 = 101 ∨ bs4.headD 0 = 69 then
        lexemeExpPart sgn mval (bs4.drop 1)
      else none
    else if bs2.headD 0 = 101 ∨ bs2.headD 0 = 69 then
      lexemeExpPart sgn ival (bs2.drop 1)
    else none


/-- Overflow threshold of IEEE-754 binary64 under round-to-nearest-even:
a decimal value rounds to an infinity exactly when its magnitude is at
least `2^1024 - 2^970` (the midpoint between the largest finite double
and `2^1024`; ties go to the even candidate, which overflows). -/
def f64Threshold : Rat := (2 : Rat) ^ 1024 - (2 : Rat) ^ 970

/-- Rust `str::parse::<f64>` on a number lexeme, observed through the only
two facts `parse_number` uses: whether the parse succeeds, and whether the
resulting double `is_finite()`. The returned rational is the exact decimal
value (the payload abstraction documented on `Number.Float`); finiteness is
the exact IEEE overflow decision on that value. -/
def rust_parse_f64 (bs : List Nat) : Option (Rat × Bool) :=
  match lexemeRat bs with
  | none => none
  | some q => some (q, decide (|q| < f64Threshold))

/-- `Value::parse_number` (src/value.rs lines 173-236): grammar scan with
`index_end`/`is_float` exactly as in the source, then conversion — a
non-float lexeme first tries the exact i64 parse and falls back to the
float parse; a float result that is not finite is `NumberTooBig`.
`bytes.first().unwrap()` panics on empty input (callers guarantee not). -/
def parse_number (bytes : List Nat) : PResult (Value × List Nat) :=
  match bytes.head? with
  | none => .panic
  | some b0 =>
    let ie0 : Nat := if b0 = 45 then 1 else 0
    let lenInt := skip_following_digits bytes ie0
    if lenInt = 0 then .err .InvalidValue
    else if bytes.getD ie0 0 = 48 ∧ lenInt > 1 then .err .RootNotSingular
    else
      let ie1 := ie0 + lenInt
      let fracStep : Option (Nat × Bool) :=
        if ie1 < bytes.length ∧ bytes.getD ie1 0 = 46 then
          let lenFrac := skip_following_digits bytes (ie1 + 1)
          if lenFrac = 0 then none else some (ie1 + 1 + lenFrac, true)
        else some (ie1, false)
      match fracStep with
      | none => .err .InvalidValue
      | some (ie2, isFloat2) =>
        let expStep : Option (Nat × Bool) :=
          if ie2 < bytes.length ∧ (bytes.getD ie2 0 = 101 ∨ bytes.getD ie2 0 = 69) then
            let ie3 :=
              if ie2 + 1 < bytes.length ∧
                  (bytes.getD (ie2 + 1) 0 = 43 ∨ bytes.getD (ie2 + 1) 0 = 45) then
                ie2 + 2
              else ie2 + 1
            let lenExp := skip_following_digits bytes ie3
            if lenExp = 0 then none else some (ie3 + lenExp, true)
          else some (ie2, isFloat2)
        match expStep with
        | none => .err .InvalidValue
        | some (indexEnd, isFloat) =>
          let lexeme := bytes.take indexEnd
          let rest := bytes.drop indexEnd
          let intTry : Option Int :=
            if isFloat then none else rust_parse_i64 lexeme
          match intTry with
          | some n => .ok (.Number (.Int n), rest)
          | none =>
            match rust_parse_f64 lexeme with
            | some (q, finite) =>
              if finite then .ok (.Number (.Float q), rest)
              else .err .NumberTooBig
            | none => .err .NumberTooBig

/-- `Value::hex4_to_u32` digit step: value of one hex digit byte. -/
def hexDigitVal (b : Nat) : Option Nat :=
  if 48 ≤ b ∧ b ≤ 57 then some (b - 48)
  else if 97 ≤ b ∧ b ≤ 102 then some (b - 97 + 10)
  else if 65 ≤ b ∧ b ≤ 70 then some (b - 65 + 10)
  else none

/-- `Value::hex4_to_u32`: fold four hex digit bytes into a code unit
(`value = (value << 4) | digit`, i.e. `value * 16 + digit`); any non-hex
byte aborts with `None`. Callers always pass length-4 slices, so the
`assert_eq!` on the length never fires. -/
def hex4_to_u32 (hex4 : List Nat) : Option Nat :=
  hex4.foldl
    (fun acc b =>
      match acc, hexDigitVal b with
      | some v, some d => some (v * 16 + d)
      | _, _ => none)
    (some 0)

/-- UTF-8 encoding of a Unicode scalar value, as `char::encode_utf8`
produces it (1 to 4 bytes). -/
def utf8EncodeChar (c : Nat) : List Nat :=
  if c < 128 then [c]
  else if c < 2048 then [192 + c / 64, 128 + c % 64]
  else if c < 65536 then [224 + c / 4096, 128 + c / 64 % 64, 128 + c % 64]
  else [240 + c / 262144, 128 + c / 4096 % 64, 128 + c / 64 % 64, 128 + c % 64]

/-- `Value::encode_utf8`: `char::from_u32` rejects surrogates (0xD800-0xDFFF)
and values above 0x10FFFF — the source maps that failure to
`InvalidUnicodeSurrogate`; otherwise the scalar's UTF-8 bytes are pushed. -/
def encode_utf8 (c : Nat) : Option (List Nat) :=
  if (55296 ≤ c ∧ c ≤ 57343) ∨ 1114111 < c then none
  else some (utf8EncodeChar c)

/-- UTF-8 continuation byte test (0x80-0xBF). -/
def isCont (b : Nat) : Bool := 128 ≤ b && b ≤ 191

/-- Validity check of `String::from_utf8`: the standard UTF-8 acceptance
automaton (no overlong forms, no surrogates, at most U+10FFFF). -/
def validUtf8 : List Nat → Bool
  | [] => true
  | b :: rest =>
    if b < 128 then validUtf8 rest
    else if 194 ≤ b ∧ b ≤ 223 then
      match rest with
      | c1 :: r => isCont c1 && validUtf8 r
      | [] => false
    else if b = 224 then
      match rest with
      | c1 :: c2 :: r => (160 ≤ c1 && c1 ≤ 191) && isCont c2 && validUtf8 r
      | _ => false
    else if (225 ≤ b ∧ b ≤ 236) ∨ b = 238 ∨ b = 239 then
      match rest with
      | c1 :: c2 :: r => isCont c1 && isCont c2 && validUtf8 r
      | _ => false
    else if b = 237 then
      match rest with
      | c1 :: c2 :: r => (128 ≤ c1 && c1 ≤ 159) && isCont c2 && validUtf8 r
      | _ => false
    else if b = 240 then
      match rest with
      | c1 :: c2 :: c3 :: r => (144 ≤ c1 && c1 ≤ 191) && isCont c2 && isCont c3 && validUtf8 r
      | _ => false
    else if 241 ≤ b ∧ b ≤ 243 then
      match rest with
      | c1 :: c2 :: c3 :: r => isCont c1 && isCont c2 && isCont c3 && validUtf8 r
      | _ => false
    else if b = 244 then
      match rest with
      | c1 :: c2 :: c3 :: r => (128 ≤ c1 && c1 ≤ 143) && isCont c2 && isCont c3 && validUtf8 r
      | _ => false
    else false

/-- One outcome of the scanning loop of `Value::parse_string_raw`:
`(quotation_marked, i_context, stack)` at loop exit. -/
abbrev StringLoopOut := Bool × Nat × List Nat

/-- The `b'u'` arm of the escape `match` in `Value::parse_string_raw`
(src/value.rs lines 293-334), factored out of the loop verbatim: the
availability check `i_context + 6 >= len`, the first `\uXXXX` decode, the
surrogate-pair branch (guard `i_context + 12 < len` plus the literal
backslash-u check, second decode, low-surrogate range check, the combine
formula `0x10000 + (hi - 0xD800) * 0x400 + (lo - 0xDC00)` and its UTF-8
encoding, advancing by 10) and the plain branch (direct encoding,
advancing by 4). Returns the updated index (before the common
`i_context += 2`) and scratch stack. The source's `match`es on `Option`
results are rendered as a `none` test followed by `getD` — the identical
case split, written with `if` so the `None` and `Some` arms stay visibly
paired with the source's. -/
def parse_u_escape (bytes : List Nat) (i : Nat) (stack : List Nat) :
    PResult (Nat × List Nat) :=
  if i + 6 ≥ bytes.length then .err .InvalidUnicodeHex
  else
    let ohi := hex4_to_u32 ((bytes.drop (i + 2)).take 4)
    if ohi = none then .err .InvalidUnicodeHex
    else
      let hi := ohi.getD 0
      if 55296 ≤ hi ∧ hi ≤ 56319 then
        if i + 12 < bytes.length ∧
            (bytes.getD (i + 6) 0 = 92 ∧ bytes.getD (i + 7) 0 = 117) then
          let olo := hex4_to_u32 ((bytes.drop (i + 8)).take 4)
          if olo = none then .err .InvalidUnicodeHex
          else
            let lo := olo.getD 0
            if ¬ (56320 ≤ lo ∧ lo ≤ 57343) then .err .InvalidUnicodeSurrogate
            else
              let oenc := encode_utf8 (65536 + (hi - 55296) * 1024 + (lo - 56320))
              if oenc = none then .err .InvalidUnicodeSurrogate
              else .ok (i + 10, stack ++ oenc.getD [])
        else .err .InvalidUnicodeSurrogate
      else
        let oenc := encode_utf8 hi
        if oenc = none then .err .InvalidUnicodeSurrogate
        else .ok (i + 4, stack ++ oenc.getD [])

/-- The `while i_context < context.bytes.len()` loop of
`Value::parse_string_raw` (src/value.rs lines 274-348), with the loop
index `i`, the scratch stack, and fuel. Every arm mirrors the source,
including the arm where a backslash is the final byte: the Rust `if
i_context + 1 < len` has no else branch, so `i_context` is not advanced
and the loop state repeats — here that is the self-call that consumes
only fuel. -/
def parse_string_loop (bytes : List Nat) : Nat → List Nat → Nat → PResult StringLoopOut
  | _, _, 0 => .fuelOut
  | i, stack, fuel + 1 =>
    if i < bytes.length then
      let b := bytes.getD i 0
      if b = 34 then .ok (true, i, stack)
      else if b = 92 then
        if i + 1 < bytes.length then
          let e := bytes.getD (i + 1) 0
          if e = 34 then parse_string_loop bytes (i + 2) (stack ++ [34]) fuel
          else if e = 92 then parse_string_loop bytes (i + 2) (stack ++ [92]) fuel
          else if e = 47 then parse_string_loop bytes (i + 2) (stack ++ [47]) fuel
          else if e = 98 then parse_string_loop bytes (i + 2) (stack ++ [98]) fuel
          else if e = 102 then parse_string_loop bytes (i + 2) (stack ++ [102]) fuel
          else if e = 110 then parse_string_loop bytes (i + 2) (stack ++ [10]) fuel
          else if e = 114 then parse_string_loop bytes (i + 2) (stack ++ [13]) fuel
          else if e = 116 then parse_string_loop bytes (i + 2) (stack ++ [9]) fuel
          else if e = 117 then
            match parse_u_escape bytes i stack with
            | .ok (i2, stack2) => parse_string_loop bytes (i2 + 2) stack2 fuel
            | .err er => .err er
            | .panic => .panic
            | .fuelOut => .fuelOut
          else .err .InvalidStringEscape
        else parse_string_loop bytes i stack fuel
      else if b < 32 then .err .InvalidStringChar
      else parse_string_loop bytes (i + 1) (stack ++ [b]) fuel
    else .ok (false, i, stack)

/-- `Value::parse_string_raw`: entry guard (`MissQuotationMark` when fewer
than two bytes remain or the first byte is not a quote), the scanning loop
from index 1 with a fresh scratch stack, and on a closed string the
`String::from_utf8(...).unwrap()` — a panic when the decoded bytes are not
valid UTF-8. Returns the string bytes and the remaining input. -/
def parse_string_raw (bytes : List Nat) (fuel : Nat) : PResult (List Nat × List Nat) :=
  if bytes.length < 2 ∨ bytes.headD 0 ≠ 34 then .err .MissQuotationMark
  else
    match parse_string_loop bytes 1 [] fuel with
    | .ok (marked, i, stack) =>
      if marked then
        if validUtf8 stack then .ok (stack, bytes.drop (i + 1))
        else .panic
      else .err .MissQuotationMark
    | .err e => .err e
    | .panic => .panic
    | .fuelOut => .fuelOut

/-- `Value::parse_string`: the `assert_eq!` on the leading quote
(panicking when the input is empty or does not start with a quote — callers
guarantee it does), then `parse_string_raw` wrapped into a `Value`. -/
def parse_string (bytes : List Nat) (fuel : Nat) : PResult (Value × List Nat) :=
  match bytes.head? with
  | none => .panic
  | some b =>
    if b ≠ 34 then .panic
    else
      match parse_string_raw bytes fuel with
      | .ok (s, rest) => .ok (.String s, rest)
      | .err e => .err e
      | .panic => .panic
      | .fuelOut => .fuelOut

/-- Strict byte-lexicographic order on keys — the `Ord` instance of Rust
`String` that `BTreeMap<String, _>` sorts by. -/
def lexLt : List Nat → List Nat → Bool
  | [], [] => false
  | [], _ :: _ => true
  | _ :: _, [] => false
  | a :: as_, b :: bs_ =>
    if a < b then true
    else if b < a then false
    else lexLt as_ bs_

/-- `Dict::insert` = `BTreeMap::insert` on the key-sorted association list:
place the new pair before the first strictly greater key; an equal key has
its value overwritten (the previous value is returned in Rust and dropped
by `parse_object`). -/
def dictInsert (d : List (List Nat × Value)) (k : List Nat) (v : Value) :
    List (List Nat × Value) :=
  match d with
  | [] => [(k, v)]
  | (k1, v1) :: rest =>
    if lexLt k k1 then (k, v) :: (k1, v1) :: rest
    else if k = k1 then (k, v) :: rest
    else (k1, v1) :: dictInsert rest k v

mutual

/-- `Value::parse_value` (src/value.rs lines 126-138): dispatch on the first
byte; end of input is `ExpectValue`. Fuel decreases on every nested call. -/
def parse_value (bytes : List Nat) : Nat → PResult (Value × List Nat)
  | 0 => .fuelOut
  | fuel + 1 =>
    match bytes.head? with
    | none => .err .ExpectValue
    | some b =>
      if b = 110 ∨ b = 116 ∨ b = 102 then parse_literal bytes
      else if b = 34 then parse_string bytes fuel
      else if b = 91 then parse_array bytes fuel
      else if b = 123 then parse_object bytes fuel
      else parse_number bytes

/-- `Value::parse_array` (src/value.rs lines 362-389): `assert_eq!` on the
consumed `[` (a panic if violated), whitespace, then
`*context.bytes.first().unwrap()` — a panic when the input ends after the
bracket; `]` yields the empty array, anything else enters the element loop. -/
def parse_array (bytes : List Nat) : Nat → PResult (Value × List Nat)
  | 0 => .fuelOut
  | fuel + 1 =>
    match bytes with
    | [] => .panic
    | b :: rest =>
      if b ≠ 91 then .panic
      else
        let bytes1 := parse_whitespace rest
        match bytes1.head? with
        | none => .panic
        | some b1 =>
          if b1 = 93 then .ok (.Array [], bytes1.drop 1)
          else parse_array_loop bytes1 [] fuel

/-- The element loop of `Value::parse_array`: parse a value, push it, skip
whitespace, then `step()`: a comma continues (after whitespace), a closing
bracket returns the array, anything else — including end of input — is
`MissCommaOrSquareBracket`. -/
def parse_array_loop (bytes : List Nat) (arr : List Value) : Nat → PResult (Value × List Nat)
  | 0 => .fuelOut
  | fuel + 1 =>
    match parse_value bytes fuel with
    | .err e => .err e
    | .panic => .panic
    | .fuelOut => .fuelOut
    | .ok (v, bytes1) =>
      let bytes2 := parse_whitespace bytes1
      match bytes2 with
      | [] => .err .MissCommaOrSquareBracket
      | b :: bytes3 =>
        if b = 44 then parse_array_loop (parse_whitespace bytes3) (arr ++ [v]) fuel
        else if b = 93 then .ok (.Array (arr ++ [v]), bytes3)
        else .err .MissCommaOrSquareBracket

/-- `Value::parse_object` (src/value.rs lines 391-431): `assert_eq!` on the
consumed `{`, whitespace, then `*context.bytes.first().unwrap()` — a panic
when the input ends after the brace; `}` yields the empty object, anything
else enters the member loop. -/
def parse_object (bytes : List Nat) : Nat → PResult (Value × List Nat)
  | 0 => .fuelOut
  | fuel + 1 =>
    match bytes with
    | [] => .panic
    | b :: rest =>
      if b ≠ 123 then .panic
      else
        let bytes1 := parse_whitespace rest
        match bytes1.head? with
        | none => .panic
        | some b1 =>
          if b1 = 125 then .ok (.Object [], bytes1.drop 1)
          else parse_object_loop bytes1 [] fuel

/-- The member loop of `Value::parse_object`: a key via `parse_string_raw`
(any `Err` becomes `MissKey`), whitespace, a colon via `step()` (else
`MissColon`), whitespace, a value via `parse_value` (any `Err` is collapsed
to `InvalidValue`), `Dict::insert` of the pair, whitespace, then `step()`:
comma continues (after whitespace), closing brace returns the object,
anything else is `MissCommaOrCurlyBracket`. -/
def parse_object_loop (bytes : List Nat) (object : List (List Nat × Value)) :
    Nat → PResult (Value × List Nat)
  | 0 => .fuelOut
  | fuel + 1 =>
    match parse_string_raw bytes fuel with
    | .err _ => .err .MissKey
    | .panic => .panic
    | .fuelOut => .fuelOut
    | .ok (key, bytes1) =>
      let bytes2 := parse_whitespace bytes1
      match bytes2 with
      | 58 :: bytes3 =>
        let bytes4 := parse_whitespace bytes3
        match parse_value bytes4 fuel with
        | .err _ => .err .InvalidValue
        | .panic => .panic
        | .fuelOut => .fuelOut
        | .ok (v, bytes5) =>
          let object1 := dictInsert object key v
          let bytes6 := parse_whitespace bytes5
          match bytes6 with
          | 44 :: bytes7 => parse_object_loop (parse_whitespace bytes7) object1 fuel
          | 125 :: bytes7 => .ok (.Object object1, bytes7)
          | _ => .err .MissCommaOrCurlyBracket
      | _ => .err .MissColon

end

/-- `Value::parse_slice` (src/value.rs lines 98-112): skip whitespace, parse
one value, skip whitespace, and reject any remaining byte with
`RootNotSingular`. -/
def parse_slice (json : List Nat) (fuel : Nat) : PResult Value :=
  let bytes := parse_whitespace json
  match parse_value bytes fuel with
  | .ok (v, bytes1) =>
    let bytes2 := parse_whitespace bytes1
    if bytes2 = [] then .ok v else .err .RootNotSingular
  | .err e => .err e
  | .panic => .panic
  | .fuelOut => .fuelOut

/-- `Value::parse`: delegates to `parse_slice` on the UTF-8 bytes of the
input string; a Rust `&str` is modelled as that byte list already. -/
def parse (json : List Nat) (fuel : Nat) : PResult Value := parse_slice json fuel

/-- Division-loop body for decimal rendering, structurally recursive on a
step budget that the wrapper instantiates with the number itself (the loop
runs at most `n` times since `n / 10 < n`); the budget-0 arm can only be
reached with `n < 10` and agrees with the single-digit case there. -/
def natDecimalAux : Nat → Nat → List Nat
  | 0, n => [48 + n % 10]
  | fuel + 1, n => if n < 10 then [48 + n] else natDecimalAux fuel (n / 10) ++ [48 + n % 10]

/-- Decimal digit bytes of a natural number, most significant first — the
default `Display` of Rust's unsigned integers. -/
def natDecimal (n : Nat) : List Nat := natDecimalAux n n

/-- Default `Display` of Rust `i64`: a minus sign for negatives, then the
decimal digits of the magnitude. -/
def intDecimal (i : Int) : List Nat :=
  if i < 0 then 45 :: natDecimal (-i).toNat else natDecimal i.toNat

/-- Rendering of `Number` by its `Display` impl (src/number.rs lines 10-18):
each variant delegates to the payload's default formatting. The `Float`
arm would be Rust's shortest-round-trip formatting of the stored double;
it is left as a placeholder here because the `Float` payload is abstracted
(see `Number`) and no theorem in this file evaluates it. -/
def numberToString : Number → List Nat
  | .Int i => intDecimal i
  | .UInt u => natDecimal u
  | .Float _ => []

/-- Uppercase hex digit byte for a value below 16 (as `{:04X}` renders). -/
def hexUpper (d : Nat) : Nat := if d < 10 then 48 + d else 55 + d

/-- The per-byte escaping of `Value::stringify_string` (src/value.rs lines
446-493): quote and backslash are backslash-escaped; the bytes 0x62 and
0x66 — the ASCII letters b and f, exactly as the source's `b'\x62'` and
`b'\x66'` arms say — become `\b` and `\f`; newline, carriage return and tab
become `\n`, `\r`, `\t`; any other byte below 0x20 renders as `\u00XX`
with uppercase hex; every other byte passes through unchanged. -/
def escByte (b : Nat) : List Nat :=
  if b = 34 then [92, 34]
  else if b = 92 then [92, 92]
  else if b = 98 then [92, 98]
  else if b = 102 then [92, 102]
  else if b = 10 then [92, 110]
  else if b = 13 then [92, 114]
  else if b = 9 then [92, 116]
  else if b < 32 then [92, 117, 48, 48, hexUpper (b / 16), hexUpper (b % 16)]
  else [b]

/-- Body of `Value::stringify_string`: the escaped bytes, in order. -/
def escBytes : List Nat → List Nat
  | [] => []
  | b :: rest => escByte b ++ escBytes rest

/-- `Value::stringify_string`: a quote, every byte escaped per `escByte`,
a closing quote. -/
def stringify_string (s : List Nat) : List Nat := 34 :: escBytes s ++ [34]

mutual

/-- `Value::stringify_value` (src/value.rs lines 435-444). -/
def stringify_value : Value → List Nat
  | .Null => strNull
  | .Bool b => if b then strTrue else strFalse
  | .Number n => numberToString n
  | .String s => stringify_string s
  | .Array arr => stringify_array arr
  | .Object object => stringify_object object

/-- `Value::stringify_array` (src/value.rs lines 495-510): `[`, the first
element's rendering, then `,` + rendering for every further element, `]`. -/
def stringify_array : List Value → List Nat
  | [] => [91, 93]
  | v :: rest => 91 :: (stringify_value v ++ stringify_array_rest rest) ++ [93]

/-- The `for v in arr.iter().skip(1)` loop of `Value::stringify_array`. -/
def stringify_array_rest : List Value → List Nat
  | [] => []
  | v :: rest => (44 :: stringify_value v) ++ stringify_array_rest rest

/-- `Value::stringify_object` (src/value.rs lines 512-543): `{`, then for the
first entry a quote, the key's bytes pushed verbatim with `push_str(key)`,
a quote, a colon and the value's rendering, then the same preceded by `,`
for every further entry, `}`. Note the keys bypass `stringify_string`. -/
def stringify_object : List (List Nat × Value) → List Nat
  | [] => [123, 125]
  | (k, v) :: rest =>
    123 :: (34 :: (k ++ 34 :: 58 :: stringify_value v) ++ stringify_object_rest rest) ++ [125]

/-- The `for (key, value) in object.iter().skip(1)` loop of
`Value::stringify_object`. -/
def stringify_object_rest : List (List Nat × Value) → List Nat
  | [] => []
  | (k, v) :: rest => (44 :: 34 :: (k ++ 34 :: 58 :: stringify_value v)) ++ stringify_object_rest rest

end

/-- `to_text` of the spec: the `Display` impl of `Value` renders via
`Value::stringify_value`. -/
def to_text (v : Value) : List Nat := stringify_value v

/-- Keys of an association list are strictly increasing in byte-lexicographic
order — the standing invariant of `BTreeMap` iteration. -/
def keysSorted : List (List Nat × Value) → Bool
  | [] => true
  | [_] => true
  | (k1, _) :: (k2, v2) :: t => lexLt k1 k2 && keysSorted ((k2, v2) :: t)

/-- The number variants the parser can build: `Int` and `Float`, not `UInt`. -/
def numberOk : Number → Bool
  | .Int _ => true
  | .UInt _ => false
  | .Float _ => true

mutual

/-- Every object anywhere inside the value has strictly key-sorted entries
(hence pairwise-distinct keys). -/
def valueInv : Value → Bool
  | .Null => true
  | .Bool _ => true
  | .Number _ => true
  | .String _ => true
  | .Array l => valueListInv l
  | .Object d => keysSorted d && entriesInv d

/-- List version of `valueInv`. -/
def valueListInv : List Value → Bool
  | [] => true
  | v :: t => valueInv v && valueListInv t

/-- Entry-list version of `valueInv`. -/
def entriesInv : List (List Nat × Value) → Bool
  | [] => true
  | (_, v) :: t => valueInv v && entriesInv t

end

mutual

/-- No `Number.UInt` occurs anywhere inside the value. -/
def valueNoUInt : Value → Bool
  | .Null => true
  | .Bool _ => true
  | .Number n => numberOk n
  | .String _ => true
  | .Array l => listNoUInt l
  | .Object d => entriesNoUInt d

/-- List version of `valueNoUInt`. -/
def listNoUInt : List Value → Bool
  | [] => true
  | v :: t => valueNoUInt v && listNoUInt t

/-- Entry-list version of `valueNoUInt`. -/
def entriesNoUInt : List (List Nat × Value) → Bool
  | [] => true
  | (_, v) :: t => valueNoUInt v && entriesNoUInt t

end

/-- Lookup in the association list backing `Dict` (`BTreeMap::get`). -/
def dictFind (d : List (List Nat × Value)) (k : List Nat) : Option Value :=
  match d with
  | [] => none
  | (k1, v1) :: rest => if k = k1 then some v1 else dictFind rest k

/-- `k0` is a strict lower bound (in `lexLt` order) for every key of the
dictionary, checked on the head of the sorted key list. -/
def keyLB (k0 : List Nat) : List (List Nat × Value) → Bool
  | [] => true
  | (k1, _) :: _ => lexLt k0 k1

/-! ## Theorems -/

/-- On the two-byte input `"`-backslash, the scanning loop of
`parse_string_raw` re-enters with an unchanged index and stack (the escape
arm is guarded by `i_context + 1 < len` with no else branch), so it only
ever consumes fuel: the Rust loop never exits. -/
theorem parse_string_loop_backslash_stuck :
    ∀ f : Nat, parse_string_loop [34, 92] 1 [] f = .fuelOut := by
  intro f
  induction f with
  | zero => rfl
  | succ n ih => exact ih

/-- The stuck loop propagates through `parse_string_raw`. -/
theorem parse_string_raw_backslash_fuelOut (n : Nat) :
    parse_string_raw [34, 92] n = .fuelOut := by
  simp [parse_string_raw, parse_string_loop_backslash_stuck n]

/-- The stuck loop propagates through `parse_value`. -/
theorem parse_value_backslash_fuelOut (n : Nat) :
    parse_value [34, 92] (n + 1) = .fuelOut := by
  simp [parse_value, parse_string, parse_string_raw_backslash_fuelOut n]

/-- C2: the claim says every input terminates with `Ok` or an error, and in
particular that the two-byte input consisting of a quote and a final
backslash ends in `MissQuotationMark`. The code instead loops forever on
that input: for every fuel amount the embedded run is `fuelOut`, i.e. the
`while` loop of `Value::parse_string_raw` never makes progress once the
backslash is the final byte. This contradicts the spec's termination and
`MissQuotationMark` sentences, so it is a bug in the code. -/
theorem parse_diverges_on_trailing_backslash :
    ∀ fuel : Nat, parse_slice [34, 92] fuel = .fuelOut := by
  intro fuel
  cases fuel with
  | zero => rfl
  | succ n =>
    have h1 : parse_value (parse_whitespace [34, 92]) (n + 1) = .fuelOut :=
      parse_value_backslash_fuelOut n
    simp [parse_slice, h1]

/-- C3: the claim says parse never panics, and names `[` or `{` followed by
whitespace or end of input, and invalid UTF-8 inside a string literal, as
inputs that return errors. The code panics on all of them: `parse_array`
and `parse_object` call `first().unwrap()` after the opening bracket, and
`parse_string_raw` calls `String::from_utf8(...).unwrap()` on the decoded
bytes. The spec's error contract is the intent, so these are code bugs. -/
theorem parse_panics_on_bracket_eof_and_invalid_utf8 :
    parse_slice [91] 9 = .panic ∧
    parse_slice [91, 32, 9] 9 = .panic ∧
    parse_slice [123] 9 = .panic ∧
    parse_slice [123, 13, 10] 9 = .panic ∧
    parse_slice [34, 255, 34] 9 = .panic :=
  ⟨rfl, rfl, rfl, rfl, rfl⟩

/-- C4: the claim says the escape `\b` decodes to backspace (U+0008) and
`\f` to form feed (U+000C), and that string values containing those bytes
re-escape them to `\b`/`\f`. The code instead pushes `b'\x62'` and
`b'\x66'` — the ASCII letters b and f — when decoding, and the stringifier
escapes the letters 0x62/0x66 to `\b`/`\f` while rendering the real
backspace and form feed bytes through the generic `\u00XX` arm. The five
conjuncts evaluate the code on the literals `"\b"` and `"\f"` and on the
one-byte strings 0x08, 0x0C and 0x62. -/
theorem escape_b_f_decode_to_letters :
    parse_slice [34, 92, 98, 34] 9 = .ok (.String [98]) ∧
    parse_slice [34, 92, 102, 34] 9 = .ok (.String [102]) ∧
    to_text (.String [8]) = [34, 92, 117, 48, 48, 48, 56, 34] ∧
    to_text (.String [12]) = [34, 92, 117, 48, 48, 48, 67, 34] ∧
    to_text (.String [98]) = [34, 92, 98, 34] :=
  ⟨rfl, rfl, rfl, rfl, rfl⟩

/-- C1: the claim says every parser-producible value round-trips through
`to_text` and `parse`. The object value parsed from `{"a\"b":1}` — whose
single key contains a quote — is a counterexample: `stringify_object`
emits the key's bytes verbatim, so `to_text` produces `{"a"b":1}`, whose
re-parse fails with `MissColon`. The spec lists round-trip as a testable
property of this parser, so the unescaped key emission is a code bug. -/
theorem roundtrip_fails_on_key_with_quote :
    parse_slice [123, 34, 97, 92, 34, 98, 34, 58, 49, 125] 20 =
      .ok (.Object [([97, 34, 98], .Number (.Int 1))]) ∧
    to_text (.Object [([97, 34, 98], .Number (.Int 1))]) =
      [123, 34, 97, 34, 98, 34, 58, 49, 125] ∧
    parse_slice [123, 34, 97, 34, 98, 34, 58, 49, 125] 20 = .err .MissColon :=
  ⟨rfl, rfl, rfl⟩

/-- `validUtf8` accepts the empty byte string. -/
theorem validUtf8_nil : validUtf8 [] = true := rfl

/-- Unfolding of `validUtf8` at a leading 0xF0 byte. -/
theorem validUtf8_cons240 (c1 c2 c3 : Nat) (r : List Nat) :
    validUtf8 (240 :: c1 :: c2 :: c3 :: r) =
      ((144 ≤ c1 && c1 ≤ 191) && isCont c2 && isCont c3 && validUtf8 r) := rfl

/-- Unfolding of `validUtf8` at a leading 0xF1 byte. -/
theorem validUtf8_cons241 (c1 c2 c3 : Nat) (r : List Nat) :
    validUtf8 (241 :: c1 :: c2 :: c3 :: r) =
      (isCont c1 && isCont c2 && isCont c3 && validUtf8 r) := rfl

/-- Unfolding of `validUtf8` at a leading 0xF2 byte. -/
theorem validUtf8_cons242 (c1 c2 c3 : Nat) (r : List Nat) :
    validUtf8 (242 :: c1 :: c2 :: c3 :: r) =
      (isCont c1 && isCont c2 && isCont c3 && validUtf8 r) := rfl

/-- Unfolding of `validUtf8` at a leading 0xF3 byte. -/
theorem validUtf8_cons243 (c1 c2 c3 : Nat) (r : List Nat) :
    validUtf8 (243 :: c1 :: c2 :: c3 :: r) =
      (isCont c1 && isCont c2 && isCont c3 && validUtf8 r) := rfl

/-- Unfolding of `validUtf8` at a leading 0xF4 byte. -/
theorem validUtf8_cons244 (c1 c2 c3 : Nat) (r : List Nat) :
    validUtf8 (244 :: c1 :: c2 :: c3 :: r) =
      ((128 ≤ c1 && c1 ≤ 143) && isCont c2 && isCont c3 && validUtf8 r) := rfl

/-- The UTF-8 encoding of every supplementary-plane scalar (the only ones a
surrogate pair can produce) is accepted by `String::from_utf8`. -/
theorem utf8Valid4 (c : Nat) (hlo : 65536 ≤ c) (hhi : c ≤ 1114111) :
    validUtf8 (utf8EncodeChar c) = true := by
  have hb : ¬ c < 128 := by omega
  have hb2 : ¬ c < 2048 := by omega
  have hb3 : ¬ c < 65536 := by omega
  rw [utf8EncodeChar, if_neg hb, if_neg hb2, if_neg hb3]
  have hq : c / 262144 = 0 ∨ c / 262144 = 1 ∨ c / 262144 = 2 ∨ c / 262144 = 3 ∨
      c / 262144 = 4 := by omega
  rcases hq with hq | hq | hq | hq | hq <;> rw [hq] <;> norm_num <;>
    first
    | (rw [validUtf8_cons240]
       simp only [isCont, validUtf8_nil, Bool.and_eq_true, decide_eq_true_eq, and_true]
       omega)
    | (rw [validUtf8_cons241]
       simp only [isCont, validUtf8_nil, Bool.and_eq_true, decide_eq_true_eq, and_true]
       omega)
    | (rw [validUtf8_cons242]
       simp only [isCont, validUtf8_nil, Bool.and_eq_true, decide_eq_true_eq, and_true]
       omega)
    | (rw [validUtf8_cons243]
       simp only [isCont, validUtf8_nil, Bool.and_eq_true, decide_eq_true_eq, and_true]
       omega)
    | (rw [validUtf8_cons244]
       simp only [isCont, validUtf8_nil, Bool.and_eq_true, decide_eq_true_eq, and_true]
       omega)

/-- The surrogate-pair arm of the `\u` escape: at any position in any
string literal whose following bytes form a high-surrogate escape, a
backslash-u, and a low-surrogate escape, the two code units are combined
through `0x10000 + (hi - 0xD800) * 0x400 + (lo - 0xDC00)` and the scratch
stack receives the UTF-8 encoding of the combined scalar `c`. -/
theorem surrogate_pair_combines
    (bytes : List Nat) (i : Nat) (stack : List Nat) (hi lo c : Nat)
    (hlen : i + 12 < bytes.length)
    (hbs : bytes.getD (i + 6) 0 = 92)
    (hbu : bytes.getD (i + 7) 0 = 117)
    (Hhi : hex4_to_u32 ((bytes.drop (i + 2)).take 4) = some hi)
    (Hlo : hex4_to_u32 ((bytes.drop (i + 8)).take 4) = some lo)
    (Rhi : 55296 ≤ hi ∧ hi ≤ 56319)
    (Rlo : 56320 ≤ lo ∧ lo ≤ 57343)
    (hc : c = 65536 + (hi - 55296) * 1024 + (lo - 56320)) :
    parse_u_escape bytes i stack = .ok (i + 10, stack ++ utf8EncodeChar c) := by
  have Henc : encode_utf8 (65536 + (hi - 55296) * 1024 + (lo - 56320)) =
      some (utf8EncodeChar c) := by
    rw [encode_utf8, if_neg (by omega), hc]
  rw [parse_u_escape]
  rw [if_neg (by omega)]
  rw [Hhi]
  simp only [Option.getD_some, reduceCtorEq, if_false]
  rw [if_pos (And.intro Rhi.1 Rhi.2)]
  rw [if_pos (And.intro hlen (And.intro hbs hbu))]
  rw [Hlo]
  simp only [Option.getD_some, reduceCtorEq, if_false]
  rw [if_neg (by omega)]
  rw [Henc]
  rfl

/-- The scanning loop on a whole-literal surrogate-pair input: one pass
through the escape arm, then the closing quote. -/
theorem surrogate_loop_full
    (h1 h2 h3 h4 l1 l2 l3 l4 hi lo c fuel : Nat)
    (Hhi : hex4_to_u32 [h1, h2, h3, h4] = some hi)
    (Hlo : hex4_to_u32 [l1, l2, l3, l4] = some lo)
    (Rhi : 55296 ≤ hi ∧ hi ≤ 56319)
    (Rlo : 56320 ≤ lo ∧ lo ≤ 57343)
    (hc : c = 65536 + (hi - 55296) * 1024 + (lo - 56320)) :
    parse_string_loop [34, 92, 117, h1, h2, h3, h4, 92, 117, l1, l2, l3, l4, 34] 1 []
        (fuel + 2) = .ok (true, 13, utf8EncodeChar c) := by
  have hue : parse_u_escape [34, 92, 117, h1, h2, h3, h4, 92, 117, l1, l2, l3, l4, 34] 1 []
      = .ok (1 + 10, [] ++ utf8EncodeChar c) := by
    refine surrogate_pair_combines _ _ _ hi lo c (by simp) rfl rfl ?_ ?_ Rhi Rlo hc
    · exact Hhi
    · exact Hlo
  have hstep1 : parse_string_loop [34, 92, 117, h1, h2, h3, h4, 92, 117, l1, l2, l3, l4, 34]
      1 [] (fuel + 2) =
      parse_string_loop [34, 92, 117, h1, h2, h3, h4, 92, 117, l1, l2, l3, l4, 34]
      13 (utf8EncodeChar c) (fuel + 1) := by
    rw [parse_string_loop]
    simp only [hue]
    norm_num
  rw [hstep1, parse_string_loop]
  norm_num

/-- A top-level string literal made of one surrogate-pair escape parses to
the UTF-8 encoding of the combined scalar. -/
theorem surrogate_parse_slice
    (h1 h2 h3 h4 l1 l2 l3 l4 hi lo c fuel : Nat)
    (Hhi : hex4_to_u32 [h1, h2, h3, h4] = some hi)
    (Hlo : hex4_to_u32 [l1, l2, l3, l4] = some lo)
    (Rhi : 55296 ≤ hi ∧ hi ≤ 56319)
    (Rlo : 56320 ≤ lo ∧ lo ≤ 57343)
    (hc : c = 65536 + (hi - 55296) * 1024 + (lo - 56320)) :
    parse_slice [34, 92, 117, h1, h2, h3, h4, 92, 117, l1, l2, l3, l4, 34] (fuel + 3) =
      .ok (.String (utf8EncodeChar c)) := by
  have hval : validUtf8 (utf8EncodeChar c) = true :=
    utf8Valid4 c (by omega) (by omega)
  have hraw : parse_string_raw [34, 92, 117, h1, h2, h3, h4, 92, 117, l1, l2, l3, l4, 34]
      (fuel + 2) = .ok (utf8EncodeChar c, []) := by
    rw [parse_string_raw, if_neg (by norm_num),
      surrogate_loop_full h1 h2 h3 h4 l1 l2 l3 l4 hi lo c fuel Hhi Hlo Rhi Rlo hc]
    simp only [hval, if_true]
    rfl
  have hstr : parse_string [34, 92, 117, h1, h2, h3, h4, 92, 117, l1, l2, l3, l4, 34]
      (fuel + 2) = .ok (.String (utf8EncodeChar c), []) := by
    rw [parse_string]
    simp only [List.head?, hraw]
    norm_num
  have hv : parse_value [34, 92, 117, h1, h2, h3, h4, 92, 117, l1, l2, l3, l4, 34]
      (fuel + 3) = .ok (.String (utf8EncodeChar c), []) := by
    rw [parse_value]
    simp only [List.head?, hstr]
    norm_num
  have hw : parse_whitespace [34, 92, 117, h1, h2, h3, h4, 92, 117, l1, l2, l3, l4, 34]
      = [34, 92, 117, h1, h2, h3, h4, 92, 117, l1, l2, l3, l4, 34] := by
    simp [parse_whitespace, List.dropWhile_cons, isWsByte]
  simp only [parse_slice, hw, hv]
  rfl

/-- C7: surrogate-pair decoding. First conjunct: at any position inside
any string literal, a high-surrogate `\uXXXX` escape followed by a
low-surrogate escape is combined through
`0x10000 + (hi - 0xD800) * 0x400 + (lo - 0xDC00)` and the UTF-8 encoding
of the single resulting scalar `c` is appended to the scratch stack.
Second conjunct: a top-level string literal consisting of exactly such a
pair parses to the one-scalar string `utf8EncodeChar c`. -/
theorem surrogate_pair_decoding :
    (∀ (bytes : List Nat) (i : Nat) (stack : List Nat) (hi lo c : Nat),
      i + 12 < bytes.length →
      bytes.getD (i + 6) 0 = 92 →
      bytes.getD (i + 7) 0 = 117 →
      hex4_to_u32 ((bytes.drop (i + 2)).take 4) = some hi →
      hex4_to_u32 ((bytes.drop (i + 8)).take 4) = some lo →
      55296 ≤ hi ∧ hi ≤ 56319 →
      56320 ≤ lo ∧ lo ≤ 57343 →
      c = 65536 + (hi - 55296) * 1024 + (lo - 56320) →
      parse_u_escape bytes i stack = .ok (i + 10, stack ++ utf8EncodeChar c)) ∧
    (∀ (h1 h2 h3 h4 l1 l2 l3 l4 hi lo c fuel : Nat),
      hex4_to_u32 [h1, h2, h3, h4] = some hi →
      hex4_to_u32 [l1, l2, l3, l4] = some lo →
      55296 ≤ hi ∧ hi ≤ 56319 →
      56320 ≤ lo ∧ lo ≤ 57343 →
      c = 65536 + (hi - 55296) * 1024 + (lo - 56320) →
      parse_slice [34, 92, 117, h1, h2, h3, h4, 92, 117, l1, l2, l3, l4, 34] (fuel + 3) =
        .ok (.String (utf8EncodeChar c))) :=
  ⟨fun bytes i stack hi lo c hl hs hu Hhi Hlo Rhi Rlo hc =>
    surrogate_pair_combines bytes i stack hi lo c hl hs hu Hhi Hlo Rhi Rlo hc,
   fun h1 h2 h3 h4 l1 l2 l3 l4 hi lo c fuel Hhi Hlo Rhi Rlo hc =>
    surrogate_parse_slice h1 h2 h3 h4 l1 l2 l3 l4 hi lo c fuel Hhi Hlo Rhi Rlo hc⟩

/-- Witness for C7: the spec's example `"𝄞"` — hex bytes
`D834` (code unit 0xD834 = 55348) and `DD1E` (0xDD1E = 56606) combine to
U+1D11E = 119070, whose UTF-8 encoding is the four bytes F0 9D 84 9E,
i.e. the single-character string for the musical G clef. -/
theorem surrogate_pair_decoding_witness :
    (hex4_to_u32 [68, 56, 51, 52] = some 55348 ∧
     hex4_to_u32 [68, 68, 49, 69] = some 56606 ∧
     119070 = 65536 + (55348 - 55296) * 1024 + (56606 - 56320)) ∧
    parse_slice [34, 92, 117, 68, 56, 51, 52, 92, 117, 68, 68, 49, 69, 34] 3 =
      .ok (.String (utf8EncodeChar 119070)) ∧
    utf8EncodeChar 119070 = [240, 157, 132, 158] :=
  ⟨⟨by decide, by decide, by decide⟩,
   surrogate_pair_decoding.2 68 56 51 52 68 68 49 69 55348 56606 119070 0
     (by decide) (by decide) (by decide) (by decide) (by decide),
   by decide⟩

set_option maxRecDepth 16384

/-- `str::parse::<i64>` accepts an unsigned digit string whose value fits. -/
theorem rust_parse_i64_digits
    (d0 : Nat) (dt : List Nat) (v : Int)
    (hdig : ∀ b ∈ d0 :: dt, isDigitByte b = true)
    (hv : v = (digitsVal (d0 :: dt) : Int))
    (hlo : -(2 ^ 63) ≤ v) (hhi : v ≤ 2 ^ 63 - 1) :
    rust_parse_i64 (d0 :: dt) = some v := by
  have hd0n : 48 ≤ d0 ∧ d0 ≤ 57 := by
    simpa [isDigitByte] using hdig d0 (List.mem_cons_self d0 dt)
  have hall : (d0 :: dt).all isDigitByte = true := List.all_eq_true.mpr hdig
  have h45 : ¬ (d0 = 45 ∨ d0 = 43) := by omega
  rw [rust_parse_i64]
  simp only [if_neg h45, if_neg (show ¬ d0 = 45 by omega)]
  rw [if_neg (by simp [hall]), ← hv, if_pos ⟨hlo, hhi⟩]

/-- `str::parse::<i64>` accepts a minus-signed digit string whose value fits. -/
theorem rust_parse_i64_neg_digits
    (d0 : Nat) (dt : List Nat) (v : Int)
    (hdig : ∀ b ∈ d0 :: dt, isDigitByte b = true)
    (hv : v = -(digitsVal (d0 :: dt) : Int))
    (hlo : -(2 ^ 63) ≤ v) (hhi : v ≤ 2 ^ 63 - 1) :
    rust_parse_i64 (45 :: d0 :: dt) = some v := by
  have hdt : ∀ b ∈ dt, isDigitByte b = true :=
    fun b hb => hdig b (List.mem_cons_of_mem _ hb)
  rw [rust_parse_i64]
  norm_num [List.all_eq_true]
  exact ⟨⟨by simp, hdig d0 (List.mem_cons_self d0 dt), hdt⟩,
    ⟨by omega, by omega⟩, by omega⟩

/-- `str::parse::<i64>` overflows on an unsigned digit string that is too big. -/
theorem rust_parse_i64_digits_none
    (d0 : Nat) (dt : List Nat)
    (hdig : ∀ b ∈ d0 :: dt, isDigitByte b = true)
    (hout : (2 ^ 63 : Int) - 1 < (digitsVal (d0 :: dt) : Int)) :
    rust_parse_i64 (d0 :: dt) = none := by
  have hd0n : 48 ≤ d0 ∧ d0 ≤ 57 := by
    simpa [isDigitByte] using hdig d0 (List.mem_cons_self d0 dt)
  have h45 : ¬ (d0 = 45 ∨ d0 = 43) := by omega
  rw [rust_parse_i64]
  simp only [if_neg h45, if_neg (show ¬ d0 = 45 by omega)]
  rw [if_neg (by simp [List.all_eq_true.mpr hdig]), if_neg (by rintro ⟨h1, h2⟩; omega)]

/-- `str::parse::<i64>` overflows on a minus-signed digit string below range. -/
theorem rust_parse_i64_neg_digits_none
    (d0 : Nat) (dt : List Nat)
    (hdig : ∀ b ∈ d0 :: dt, isDigitByte b = true)
    (hout : -(digitsVal (d0 :: dt) : Int) < -(2 ^ 63)) :
    rust_parse_i64 (45 :: d0 :: dt) = none := by
  have hdt : ∀ b ∈ dt, isDigitByte b = true :=
    fun b hb => hdig b (List.mem_cons_of_mem _ hb)
  rw [rust_parse_i64]
  norm_num [List.all_eq_true]
  intro h1 h2 h3
  omega

/-- The float parse of an unsigned digit string: the exact value with the
IEEE finiteness flag. -/
theorem rust_parse_f64_digits
    (d0 : Nat) (dt : List Nat) (q : Rat)
    (hdig : ∀ b ∈ d0 :: dt, isDigitByte b = true)
    (hq : q = (digitsVal (d0 :: dt) : Rat)) :
    rust_parse_f64 (d0 :: dt) = some (q, decide (|q| < f64Threshold)) := by
  have hd0n : 48 ≤ d0 ∧ d0 ≤ 57 := by
    simpa [isDigitByte] using hdig d0 (List.mem_cons_self d0 dt)
  have htw : (d0 :: dt).takeWhile isDigitByte = d0 :: dt :=
    List.takeWhile_eq_self_iff.mpr hdig
  rw [rust_parse_f64, lexemeRat]
  simp only [if_neg (show ¬ d0 = 45 by omega), htw]
  rw [if_neg (by simp), List.drop_length, ← hq]
  norm_num

/-- The float parse of a minus-signed digit string. -/
theorem rust_parse_f64_neg_digits
    (d0 : Nat) (dt : List Nat) (q : Rat)
    (hdig : ∀ b ∈ d0 :: dt, isDigitByte b = true)
    (hq : q = -(digitsVal (d0 :: dt) : Rat)) :
    rust_parse_f64 (45 :: d0 :: dt) = some (q, decide (|q| < f64Threshold)) := by
  have htw : (d0 :: dt).takeWhile isDigitByte = d0 :: dt :=
    List.takeWhile_eq_self_iff.mpr hdig
  rw [rust_parse_f64, lexemeRat]
  norm_num [htw]
  rw [← hq]
  rfl

/-- `parse_number` on an in-range unsigned integer lexeme: exact `Int`. -/
theorem parse_number_int_pos
    (d0 : Nat) (dt : List Nat) (v : Int)
    (hdig : ∀ b ∈ d0 :: dt, isDigitByte b = true)
    (hlead : ¬ (d0 = 48 ∧ dt ≠ []))
    (hv : v = (digitsVal (d0 :: dt) : Int))
    (hlo : -(2 ^ 63) ≤ v) (hhi : v ≤ 2 ^ 63 - 1) :
    parse_number (d0 :: dt) = .ok (.Number (.Int v), []) := by
  have hd0n : 48 ≤ d0 ∧ d0 ≤ 57 := by
    simpa [isDigitByte] using hdig d0 (List.mem_cons_self d0 dt)
  have htw : (d0 :: dt).takeWhile isDigitByte = d0 :: dt :=
    List.takeWhile_eq_self_iff.mpr hdig
  have hsk : skip_following_digits (d0 :: dt) 0 = (d0 :: dt).length := by
    simp [skip_following_digits, htw]
  have hlex := rust_parse_i64_digits d0 dt v hdig hv hlo hhi
  rw [parse_number]
  simp only [List.head?_cons]
  rw [if_neg (show ¬ d0 = 45 by omega)]
  rw [hsk]
  rw [if_neg (by simp)]
  rw [if_neg (show ¬ ((d0 :: dt).getD 0 0 = 48 ∧ 1 < (d0 :: dt).length) by
    rintro ⟨h1, h2⟩
    exact hlead ⟨by simpa using h1, by
      rcases dt with _ | ⟨x, xs⟩
      · simp at h2
      · simp⟩)]
  rw [if_neg (by rintro ⟨h, hrest⟩; omega)]
  norm_num [List.take_length, List.drop_length, hlex]

/-- `parse_number` on an in-range minus-signed integer lexeme: exact `Int`. -/
theorem parse_number_int_neg
    (d0 : Nat) (dt : List Nat) (v : Int)
    (hdig : ∀ b ∈ d0 :: dt, isDigitByte b = true)
    (hlead : ¬ (d0 = 48 ∧ dt ≠ []))
    (hv : v = -(digitsVal (d0 :: dt) : Int))
    (hlo : -(2 ^ 63) ≤ v) (hhi : v ≤ 2 ^ 63 - 1) :
    parse_number (45 :: d0 :: dt) = .ok (.Number (.Int v), []) := by
  have hd0n : 48 ≤ d0 ∧ d0 ≤ 57 := by
    simpa [isDigitByte] using hdig d0 (List.mem_cons_self d0 dt)
  have htw : (d0 :: dt).takeWhile isDigitByte = d0 :: dt :=
    List.takeWhile_eq_self_iff.mpr hdig
  have hsk : skip_following_digits (45 :: d0 :: dt) 1 = (d0 :: dt).length := by
    simp [skip_following_digits, htw]
  have hlen45 : 1 + (d0 :: dt).length = (45 :: d0 :: dt).length := by
    simp [Nat.add_comm]
  have hlex := rust_parse_i64_neg_digits d0 dt v hdig hv hlo hhi
  rw [parse_number]
  simp only [List.head?_cons]
  norm_num
  rw [hsk]
  rw [if_neg (by simp)]
  rw [if_neg (show ¬ (d0 = 48 ∧ 1 < (d0 :: dt).length) by
    rintro ⟨h1, h2⟩
    exact hlead ⟨h1, by
      rcases dt with _ | ⟨x, xs⟩
      · simp at h2
      · simp⟩)]
  rw [if_neg (by rintro ⟨h, hrest⟩; simp only [List.length_cons] at h; omega)]
  rw [hlen45]
  norm_num [List.take_length, List.drop_length, hlex]

/-- `parse_number` on an out-of-range unsigned integer lexeme: falls back
to the float parse. -/
theorem parse_number_float_pos
    (d0 : Nat) (dt : List Nat) (q : Rat)
    (hdig : ∀ b ∈ d0 :: dt, isDigitByte b = true)
    (hlead : ¬ (d0 = 48 ∧ dt ≠ []))
    (hout : (2 ^ 63 : Int) - 1 < (digitsVal (d0 :: dt) : Int))
    (hq : q = (digitsVal (d0 :: dt) : Rat)) :
    parse_number (d0 :: dt) =
      if |q| < f64Threshold then .ok (.Number (.Float q), []) else .err .NumberTooBig := by
  have hd0n : 48 ≤ d0 ∧ d0 ≤ 57 := by
    simpa [isDigitByte] using hdig d0 (List.mem_cons_self d0 dt)
  have htw : (d0 :: dt).takeWhile isDigitByte = d0 :: dt :=
    List.takeWhile_eq_self_iff.mpr hdig
  have hsk : skip_following_digits (d0 :: dt) 0 = (d0 :: dt).length := by
    simp [skip_following_digits, htw]
  have hnone := rust_parse_i64_digits_none d0 dt hdig hout
  have hf64 := rust_parse_f64_digits d0 dt q hdig hq
  rw [parse_number]
  simp only [List.head?_cons]
  rw [if_neg (show ¬ d0 = 45 by omega)]
  rw [hsk]
  rw [if_neg (by simp)]
  rw [if_neg (show ¬ ((d0 :: dt).getD 0 0 = 48 ∧ 1 < (d0 :: dt).length) by
    rintro ⟨h1, h2⟩
    exact hlead ⟨by simpa using h1, by
      rcases dt with _ | ⟨x, xs⟩
      · simp at h2
      · simp⟩)]
  rw [if_neg (by rintro ⟨h, hrest⟩; omega)]
  norm_num [List.take_length, List.drop_length, hnone, hf64]

/-- `parse_number` on an out-of-range minus-signed integer lexeme: falls
back to the float parse. -/
theorem parse_number_float_neg
    (d0 : Nat) (dt : List Nat) (q : Rat)
    (hdig : ∀ b ∈ d0 :: dt, isDigitByte b = true)
    (hlead : ¬ (d0 = 48 ∧ dt ≠ []))
    (hout : -(digitsVal (d0 :: dt) : Int) < -(2 ^ 63))
    (hq : q = -(digitsVal (d0 :: dt) : Rat)) :
    parse_number (45 :: d0 :: dt) =
      if |q| < f64Threshold then .ok (.Number (.Float q), []) else .err .NumberTooBig := by
  have hd0n : 48 ≤ d0 ∧ d0 ≤ 57 := by
    simpa [isDigitByte] using hdig d0 (List.mem_cons_self d0 dt)
  have htw : (d0 :: dt).takeWhile isDigitByte = d0 :: dt :=
    List.takeWhile_eq_self_iff.mpr hdig
  have hsk : skip_following_digits (45 :: d0 :: dt) 1 = (d0 :: dt).length := by
    simp [skip_following_digits, htw]
  have hlen45 : 1 + (d0 :: dt).length = (45 :: d0 :: dt).length := by
    simp [Nat.add_comm]
  have hnone := rust_parse_i64_neg_digits_none d0 dt hdig hout
  have hf64 := rust_parse_f64_neg_digits d0 dt q hdig hq
  rw [parse_number]
  simp only [List.head?_cons]
  norm_num
  rw [hsk]
  rw [if_neg (by simp)]
  rw [if_neg (show ¬ (d0 = 48 ∧ 1 < (d0 :: dt).length) by
    rintro ⟨h1, h2⟩
    exact hlead ⟨h1, by
      rcases dt with _ | ⟨x, xs⟩
      · simp at h2
      · simp⟩)]
  rw [if_neg (by rintro ⟨h, hrest⟩; simp only [List.length_cons] at h; omega)]
  rw [hlen45]
  norm_num [List.take_length, List.drop_length, hnone, hf64]

/-- `parse_value` dispatches a digit or minus byte to `parse_number`. -/
theorem parse_value_dispatch_number (b0 : Nat) (rest : List Nat) (fuel : Nat)
    (hb0 : 48 ≤ b0 ∧ b0 ≤ 57 ∨ b0 = 45) :
    parse_value (b0 :: rest) (fuel + 1) = parse_number (b0 :: rest) := by
  rw [parse_value]
  simp only [List.head?_cons]
  rw [if_neg (by omega), if_neg (by omega), if_neg (by omega), if_neg (by omega)]

/-- `parse_slice` of a whole-input number lexeme that parses cleanly. -/
theorem parse_slice_number_ok (b0 : Nat) (rest : List Nat) (v : Value) (fuel : Nat)
    (hb0 : 48 ≤ b0 ∧ b0 ≤ 57 ∨ b0 = 45)
    (h : parse_number (b0 :: rest) = .ok (v, [])) :
    parse_slice (b0 :: rest) (fuel + 1) = .ok v := by
  have hw : parse_whitespace (b0 :: rest) = b0 :: rest := by
    have : isWsByte b0 = false := by simp [isWsByte]; omega
    simp [parse_whitespace, List.dropWhile_cons, this]
  rw [parse_slice, hw, parse_value_dispatch_number b0 rest fuel hb0, h]
  rfl

/-- `parse_slice` of a whole-input number lexeme that fails to parse. -/
theorem parse_slice_number_err (b0 : Nat) (rest : List Nat) (e : ParseError) (fuel : Nat)
    (hb0 : 48 ≤ b0 ∧ b0 ≤ 57 ∨ b0 = 45)
    (h : parse_number (b0 :: rest) = .err e) :
    parse_slice (b0 :: rest) (fuel + 1) = .err e := by
  have hw : parse_whitespace (b0 :: rest) = b0 :: rest := by
    have : isWsByte b0 = false := by simp [isWsByte]; omega
    simp [parse_whitespace, List.dropWhile_cons, this]
  rw [parse_slice, hw, parse_value_dispatch_number b0 rest fuel hb0, h]

/-- The lexeme `1e309` denotes exactly `10 ^ 309`. -/
theorem one_e_309_lexeme : lexemeRat [49, 101, 51, 48, 57] = some ((10 : Rat) ^ 309) := by
  rw [lexemeRat]
  norm_num [lexemeExpPart, digitsVal, isDigitByte, List.takeWhile]
  simp

/-- The float parse of `1e309` overflows (`10 ^ 309` is past the binary64
overflow threshold), so the stored double would not be finite. -/
theorem one_e_309_f64 : rust_parse_f64 [49, 101, 51, 48, 57] =
    some ((10 : Rat) ^ 309, false) := by
  rw [rust_parse_f64, one_e_309_lexeme]
  have hlt : ¬ (|(10 : Rat) ^ 309| < f64Threshold) := by
    norm_num [f64Threshold]
  simp [hlt]
  norm_num [f64Threshold]

/-- The input `1e309` fails with `NumberTooBig`. -/
theorem one_e_309 : parse_slice [49, 101, 51, 48, 57] 9 = .err .NumberTooBig := by
  have hpn : parse_number [49, 101, 51, 48, 57] = .err .NumberTooBig := by
    rw [parse_number]
    norm_num [skip_following_digits, isDigitByte, List.takeWhile, one_e_309_f64]
  exact parse_slice_number_err 49 [101, 51, 48, 57] _ 8 (Or.inl (by omega)) hpn

/-- C6: integer/float disambiguation and overflow. Conjuncts one and two:
a number lexeme of bare digits (optionally minus-signed), with no
fractional point and no exponent, whose decimal value fits the signed
64-bit range, parses to `Number.Int` with the exact value (the minus-signed
case covers `-0`, whose exact value is 0). Conjuncts three and four: such a
lexeme whose value is out of the i64 range falls back to the float parse,
yielding `Number.Float` when the value is below the binary64 overflow
threshold and `NumberTooBig` otherwise. Conjunct five: `1e309` — a float
lexeme whose double rounds to infinity — fails with `NumberTooBig`. -/
theorem integer_float_disambiguation :
    (∀ (d0 : Nat) (dt : List Nat) (v : Int) (fuel : Nat),
      (∀ b ∈ d0 :: dt, isDigitByte b = true) → ¬ (d0 = 48 ∧ dt ≠ []) →
      v = (digitsVal (d0 :: dt) : Int) → -(2 ^ 63) ≤ v → v ≤ 2 ^ 63 - 1 →
      parse_slice (d0 :: dt) (fuel + 1) = .ok (.Number (.Int v))) ∧
    (∀ (d0 : Nat) (dt : List Nat) (v : Int) (fuel : Nat),
      (∀ b ∈ d0 :: dt, isDigitByte b = true) → ¬ (d0 = 48 ∧ dt ≠ []) →
      v = -(digitsVal (d0 :: dt) : Int) → -(2 ^ 63) ≤ v → v ≤ 2 ^ 63 - 1 →
      parse_slice (45 :: d0 :: dt) (fuel + 1) = .ok (.Number (.Int v))) ∧
    (∀ (d0 : Nat) (dt : List Nat) (q : Rat) (fuel : Nat),
      (∀ b ∈ d0 :: dt, isDigitByte b = true) → ¬ (d0 = 48 ∧ dt ≠ []) →
      (2 ^ 63 : Int) - 1 < (digitsVal (d0 :: dt) : Int) →
      q = (digitsVal (d0 :: dt) : Rat) →
      parse_slice (d0 :: dt) (fuel + 1) =
        if |q| < f64Threshold then .ok (.Number (.Float q)) else .err .NumberTooBig) ∧
    (∀ (d0 : Nat) (dt : List Nat) (q : Rat) (fuel : Nat),
      (∀ b ∈ d0 :: dt, isDigitByte b = true) → ¬ (d0 = 48 ∧ dt ≠ []) →
      -(digitsVal (d0 :: dt) : Int) < -(2 ^ 63) →
      q = -(digitsVal (d0 :: dt) : Rat) →
      parse_slice (45 :: d0 :: dt) (fuel + 1) =
        if |q| < f64Threshold then .ok (.Number (.Float q)) else .err .NumberTooBig) ∧
    parse_slice [49, 101, 51, 48, 57] 9 = .err .NumberTooBig := by
  refine ⟨?_, ?_, ?_, ?_, one_e_309⟩
  · intro d0 dt v fuel hdig hlead hv hlo hhi
    have hd0n : 48 ≤ d0 ∧ d0 ≤ 57 := by
      simpa [isDigitByte] using hdig d0 (List.mem_cons_self d0 dt)
    exact parse_slice_number_ok d0 dt _ fuel (Or.inl hd0n)
      (parse_number_int_pos d0 dt v hdig hlead hv hlo hhi)
  · intro d0 dt v fuel hdig hlead hv hlo hhi
    exact parse_slice_number_ok 45 (d0 :: dt) _ fuel (Or.inr rfl)
      (parse_number_int_neg d0 dt v hdig hlead hv hlo hhi)
  · intro d0 dt q fuel hdig hlead hout hq
    have hd0n : 48 ≤ d0 ∧ d0 ≤ 57 := by
      simpa [isDigitByte] using hdig d0 (List.mem_cons_self d0 dt)
    have hpn := parse_number_float_pos d0 dt q hdig hlead hout hq
    by_cases hfin : |q| < f64Threshold
    · rw [if_pos hfin]
      exact parse_slice_number_ok d0 dt _ fuel (Or.inl hd0n) (hpn.trans (if_pos hfin))
    · rw [if_neg hfin]
      exact parse_slice_number_err d0 dt _ fuel (Or.inl hd0n) (hpn.trans (if_neg hfin))
  · intro d0 dt q fuel hdig hlead hout hq
    have hpn := parse_number_float_neg d0 dt q hdig hlead hout hq
    by_cases hfin : |q| < f64Threshold
    · rw [if_pos hfin]
      exact parse_slice_number_ok 45 (d0 :: dt) _ fuel (Or.inr rfl) (hpn.trans (if_pos hfin))
    · rw [if_neg hfin]
      exact parse_slice_number_err 45 (d0 :: dt) _ fuel (Or.inr rfl) (hpn.trans (if_neg hfin))

/-- Witness for C6: `-0` parses to exactly `Int 0`, and the first integer
past the i64 range, 9223372036854775808, falls back to a finite float. -/
theorem integer_float_disambiguation_witness :
    ((∀ b ∈ [48], isDigitByte b = true) ∧ (0 : Int) = -(digitsVal [48] : Int) ∧
      parse_slice [45, 48] 1 = .ok (.Number (.Int 0))) ∧
    ((2 ^ 63 : Int) - 1 <
        (digitsVal [57, 50, 50, 51, 51, 55, 50, 48, 51, 54, 56, 53, 52, 55, 55, 53, 56, 48, 56] : Int) ∧
      parse_slice [57, 50, 50, 51, 51, 55, 50, 48, 51, 54, 56, 53, 52, 55, 55, 53, 56, 48, 56] 1 =
        .ok (.Number (.Float 9223372036854775808))) := by
  refine ⟨⟨by decide, by decide, ?_⟩, ⟨by decide, ?_⟩⟩
  · exact integer_float_disambiguation.2.1 48 [] 0 0 (by decide) (by simp) (by decide)
      (by decide) (by decide)
  · have h := integer_float_disambiguation.2.2.1 57
      [50, 50, 51, 51, 55, 50, 48, 51, 54, 56, 53, 52, 55, 55, 53, 56, 48, 56]
      9223372036854775808 0 (by decide) (by simp) (by decide) (by norm_num [digitsVal])
    rw [h, if_pos (by norm_num [f64Threshold])]

/-- C5: a top-level number whose integer part starts with the digit 0
followed by at least one more digit is rejected, and the error kind is
`RootNotSingular` (the arm at src/value.rs line 187), exactly as the spec
records for the reference behaviour. The optional leading minus sign is
covered by the `pre` argument. -/
theorem leading_zero_signals_root_not_singular
    (pre : List Nat) (d : Nat) (rest : List Nat) (fuel : Nat)
    (hpre : pre = [] ∨ pre = [45]) (hd : isDigitByte d = true) :
    parse_slice (pre ++ 48 :: d :: rest) (fuel + 1) = .err .RootNotSingular := by
  have hd2 : 48 ≤ d ∧ d ≤ 57 := by simpa [isDigitByte] using hd
  rcases hpre with h | h <;> subst h
  · have hsk : skip_following_digits (48 :: d :: rest) 0 =
        ((48 :: d :: rest).takeWhile isDigitByte).length := by
      simp [skip_following_digits]
    have htw : (48 :: d :: rest).takeWhile isDigitByte =
        48 :: d :: rest.takeWhile isDigitByte := by
      simp [List.takeWhile_cons, isDigitByte, hd2.1, hd2.2]
    have hpn : parse_number (48 :: d :: rest) = .err .RootNotSingular := by
      simp [parse_number, hsk, htw]
    have hpv : parse_value (48 :: d :: rest) (fuel + 1) = .err .RootNotSingular := by
      simp [parse_value, hpn]
    have hw : parse_whitespace (48 :: d :: rest) = 48 :: d :: rest := by
      simp [parse_whitespace, List.dropWhile_cons, isWsByte]
    simp [parse_slice, hw, hpv]
  · have hsk : skip_following_digits (45 :: 48 :: d :: rest) 1 =
        ((48 :: d :: rest).takeWhile isDigitByte).length := by
      simp [skip_following_digits]
    have htw : (48 :: d :: rest).takeWhile isDigitByte =
        48 :: d :: rest.takeWhile isDigitByte := by
      simp [List.takeWhile_cons, isDigitByte, hd2.1, hd2.2]
    have hpn : parse_number (45 :: 48 :: d :: rest) = .err .RootNotSingular := by
      simp [parse_number, hsk, htw]
    have hpv : parse_value (45 :: 48 :: d :: rest) (fuel + 1) = .err .RootNotSingular := by
      simp [parse_value, hpn]
    have hw : parse_whitespace (45 :: 48 :: d :: rest) = 45 :: 48 :: d :: rest := by
      simp [parse_whitespace, List.dropWhile_cons, isWsByte]
    simp [parse_slice, hw, hpv]

/-- Witness for C5 at the concrete input `0123`. -/
theorem leading_zero_signals_root_not_singular_witness :
    isDigitByte 49 = true ∧
    parse_slice [48, 49, 50, 51] 1 = .err .RootNotSingular :=
  ⟨by decide,
   leading_zero_signals_root_not_singular [] 49 [50, 51] 0 (Or.inl rfl) (by decide)⟩

/-- A key byte that occurs in some member of an object occurs in the
stringified tail of the member list. -/
theorem mem_stringify_object_rest {b : Nat} {k : List Nat} {v : Value} :
    ∀ {rest : List (List Nat × Value)}, (k, v) ∈ rest → b ∈ k →
      b ∈ stringify_object_rest rest := by
  intro rest
  induction rest with
  | nil => intro h; exact absurd h (List.not_mem_nil _)
  | cons hd tl ih =>
    intro hmem hb
    rcases hd with ⟨k1, v1⟩
    rcases List.mem_cons.mp hmem with heq | htl
    · rcases Prod.mk.injEq .. ▸ heq with ⟨hk, hv⟩
      subst hk
      simp [stringify_object_rest, hb]
    · simp [stringify_object_rest, ih htl hb]

/-- C10: `stringify_object` pushes each key's bytes verbatim between
quotes (`result.push_str(key)`), bypassing `stringify_string`. The first
conjunct exhibits the exact output for a one-member object — the key
appears raw, whatever bytes it holds; the second shows that any byte of
any member's key (quote, backslash, control bytes included) occurs
unchanged in the rendered text of any object containing it. -/
theorem object_keys_emitted_verbatim
    (k : List Nat) (v : Value) (d : List (List Nat × Value)) (b : Nat)
    (hmem : (k, v) ∈ d) (hb : b ∈ k) :
    to_text (.Object [(k, v)]) =
      (123 :: (34 :: (k ++ 34 :: 58 :: stringify_value v))) ++ [125] ∧
    b ∈ to_text (.Object d) := by
  constructor
  · simp [to_text, stringify_value, stringify_object, stringify_object_rest]
  · rcases d with _ | ⟨⟨k1, v1⟩, t⟩
    · exact absurd hmem (List.not_mem_nil _)
    · rcases List.mem_cons.mp hmem with heq | htl
      · rcases Prod.mk.injEq .. ▸ heq with ⟨hk, hv⟩
        subst hk
        simp [to_text, stringify_value, stringify_object, hb]
      · simp [to_text, stringify_value, stringify_object,
          mem_stringify_object_rest htl hb]

/-- Witness for C10: the key `a"b` (with a raw quote and, as second
example byte, a raw control byte 0x08 via the key `bel`-like key) inside a
concrete object; the quote byte 34 of the key appears raw in the output. -/
theorem object_keys_emitted_verbatim_witness :
    ((([97, 34, 98], Value.Null) ∈ [(([97, 34, 98] : List Nat), Value.Null)]) ∧
      (34 ∈ [97, 34, 98])) ∧
    (to_text (.Object [([97, 34, 98], Value.Null)]) =
      (123 :: (34 :: ([97, 34, 98] ++ 34 :: 58 :: stringify_value Value.Null))) ++ [125] ∧
    34 ∈ to_text (.Object [([97, 34, 98], Value.Null)])) :=
  ⟨⟨List.mem_singleton.mpr rfl, by decide⟩,
   object_keys_emitted_verbatim [97, 34, 98] Value.Null
     [([97, 34, 98], Value.Null)] 34 (List.mem_singleton.mpr rfl) (by decide)⟩

end Kjson

namespace Kjson

theorem keysSorted_cons (k0 : List Nat) (v0 : Value) (d : List (List Nat × Value)) :
    keysSorted ((k0, v0) :: d) = (keyLB k0 d && keysSorted d) := by
  cases d with
  | nil => simp [keysSorted, keyLB]
  | cons hd tl =>
    rcases hd with ⟨k1, v1⟩
    simp [keysSorted, keyLB]

theorem lexLt_total : ∀ (a b : List Nat), a = b ∨ lexLt a b = true ∨ lexLt b a = true
  | [], [] => Or.inl rfl
  | [], _ :: _ => Or.inr (Or.inl (by simp [lexLt]))
  | _ :: _, [] => Or.inr (Or.inr (by simp [lexLt]))
  | a :: as_, b :: bs_ => by
    rcases Nat.lt_trichotomy a b with h | h | h
    · exact Or.inr (Or.inl (by simp [lexLt, h]))
    · subst h
      rcases lexLt_total as_ bs_ with h2 | h2 | h2
      · exact Or.inl (by rw [h2])
      · exact Or.inr (Or.inl (by simp [lexLt, h2]))
      · exact Or.inr (Or.inr (by simp [lexLt, h2]))
    · exact Or.inr (Or.inr (by simp [lexLt, h]))

theorem keyLB_dictInsert (k0 k : List Nat) (v : Value) :
    ∀ (d : List (List Nat × Value)), keyLB k0 d = true → lexLt k0 k = true →
      keyLB k0 (dictInsert d k v) = true
  | [], _, hk => by simp [dictInsert, keyLB, hk]
  | (k1, v1) :: rest, h, hk => by
    rw [dictInsert]
    by_cases h1 : lexLt k k1 = true
    · rw [if_pos h1]; simpa [keyLB] using hk
    · rw [if_neg h1]
      by_cases h2 : k = k1
      · rw [if_pos h2]; simpa [keyLB] using hk
      · rw [if_neg h2]; simpa [keyLB] using h

theorem dictInsert_keysSorted (k : List Nat) (v : Value) :
    ∀ (d : List (List Nat × Value)), keysSorted d = true →
      keysSorted (dictInsert d k v) = true
  | [], _ => by simp [dictInsert, keysSorted]
  | (k1, v1) :: rest, h => by
    rw [keysSorted_cons, Bool.and_eq_true] at h
    rw [dictInsert]
    by_cases h1 : lexLt k k1 = true
    · rw [if_pos h1]
      rw [keysSorted_cons, keysSorted_cons]
      have e1 : keyLB k ((k1, v1) :: rest) = lexLt k k1 := rfl
      simp [e1, h1, h.1, h.2]
    · rw [if_neg h1]
      by_cases h2 : k = k1
      · rw [if_pos h2]
        rw [keysSorted_cons]
        subst h2
        simp [h.1, h.2]
      · rw [if_neg h2]
        have hk1k : lexLt k1 k = true := by
          rcases lexLt_total k k1 with h3 | h3 | h3
          · exact absurd h3 h2
          · exact absurd h3 h1
          · exact h3
        rw [keysSorted_cons]
        simp [keyLB_dictInsert k1 k v rest h.1 hk1k,
          dictInsert_keysSorted k v rest h.2]

theorem dictFind_dictInsert_self (k : List Nat) (v : Value) :
    ∀ (d : List (List Nat × Value)), dictFind (dictInsert d k v) k = some v
  | [] => by simp [dictInsert, dictFind]
  | (k1, v1) :: rest => by
    rw [dictInsert]
    by_cases h1 : lexLt k k1 = true
    · rw [if_pos h1]; simp [dictFind]
    · rw [if_neg h1]
      by_cases h2 : k = k1
      · rw [if_pos h2]; simp [dictFind]
      · rw [if_neg h2]
        rw [dictFind, if_neg h2]
        exact dictFind_dictInsert_self k v rest

theorem dictFind_dictInsert_other (k k2 : List Nat) (v : Value) (hne : k2 ≠ k) :
    ∀ (d : List (List Nat × Value)), dictFind (dictInsert d k v) k2 = dictFind d k2
  | [] => by simp [dictInsert, dictFind, hne]
  | (k1, v1) :: rest => by
    rw [dictInsert]
    by_cases h1 : lexLt k k1 = true
    · rw [if_pos h1]
      rw [dictFind, if_neg hne]
    · rw [if_neg h1]
      by_cases h2 : k = k1
      · rw [if_pos h2]
        subst h2
        rw [dictFind, if_neg hne, dictFind, if_neg hne]
      · rw [if_neg h2]
        rw [dictFind]
        by_cases h3 : k2 = k1
        · rw [if_pos h3, dictFind, if_pos h3]
        · rw [if_neg h3, dictFind, if_neg h3]
          exact dictFind_dictInsert_other k k2 v hne rest

end Kjson
namespace Kjson

theorem dictInsert_entriesInv (k : List Nat) (v : Value) (hv : valueInv v = true) :
    ∀ (d : List (List Nat × Value)), entriesInv d = true →
      entriesInv (dictInsert d k v) = true
  | [], _ => by simp [dictInsert, entriesInv, hv]
  | (k1, v1) :: rest, h => by
    rw [entriesInv, Bool.and_eq_true] at h
    rw [dictInsert]
    by_cases h1 : lexLt k k1 = true
    · rw [if_pos h1]
      simp [entriesInv, hv, h.1, h.2]
    · rw [if_neg h1]
      by_cases h2 : k = k1
      · rw [if_pos h2]
        simp [entriesInv, hv, h.2]
      · rw [if_neg h2]
        simp [entriesInv, h.1, dictInsert_entriesInv k v hv rest h.2]

theorem dictInsert_entriesNoUInt (k : List Nat) (v : Value) (hv : valueNoUInt v = true) :
    ∀ (d : List (List Nat × Value)), entriesNoUInt d = true →
      entriesNoUInt (dictInsert d k v) = true
  | [], _ => by simp [dictInsert, entriesNoUInt, hv]
  | (k1, v1) :: rest, h => by
    rw [entriesNoUInt, Bool.and_eq_true] at h
    rw [dictInsert]
    by_cases h1 : lexLt k k1 = true
    · rw [if_pos h1]
      simp [entriesNoUInt, hv, h.1, h.2]
    · rw [if_neg h1]
      by_cases h2 : k = k1
      · rw [if_pos h2]
        simp [entriesNoUInt, hv, h.2]
      · rw [if_neg h2]
        simp [entriesNoUInt, h.1, dictInsert_entriesNoUInt k v hv rest h.2]

theorem valueListInv_append (l1 l2 : List Value) :
    valueListInv (l1 ++ l2) = (valueListInv l1 && valueListInv l2) := by
  induction l1 with
  | nil => simp [valueListInv]
  | cons x xs ih => simp [valueListInv, ih, Bool.and_assoc]

theorem listNoUInt_append (l1 l2 : List Value) :
    listNoUInt (l1 ++ l2) = (listNoUInt l1 && listNoUInt l2) := by
  induction l1 with
  | nil => simp [listNoUInt]
  | cons x xs ih => simp [listNoUInt, ih, Bool.and_assoc]

theorem parse_literal_good (bytes : List Nat) (v : Value) (rest : List Nat)
    (h : parse_literal bytes = .ok (v, rest)) :
    valueInv v = true ∧ valueNoUInt v = true := by
  rw [parse_literal] at h
  repeat' split at h
  all_goals first
    | contradiction
    | (simp only [PResult.ok.injEq, Prod.mk.injEq] at h
       obtain ⟨rfl, rfl⟩ := h
       simp [valueInv, valueNoUInt])

theorem parse_number_good (bytes : List Nat) (v : Value) (rest : List Nat)
    (h : parse_number bytes = .ok (v, rest)) :
    valueInv v = true ∧ valueNoUInt v = true := by
  simp only [parse_number] at h
  repeat' split at h
  all_goals first
    | contradiction
    | (obtain ⟨rfl, rfl⟩ := h
       simp [valueInv, valueNoUInt, numberOk])
    | (simp only [PResult.ok.injEq, Prod.mk.injEq] at h
       obtain ⟨rfl, rfl⟩ := h
       simp [valueInv, valueNoUInt, numberOk])

theorem parse_string_good (bytes : List Nat) (fuel : Nat) (v : Value) (rest : List Nat)
    (h : parse_string bytes fuel = .ok (v, rest)) :
    valueInv v = true ∧ valueNoUInt v = true := by
  rw [parse_string] at h
  repeat' split at h
  all_goals first
    | contradiction
    | (simp only [PResult.ok.injEq, Prod.mk.injEq] at h
       obtain ⟨rfl, rfl⟩ := h
       simp [valueInv, valueNoUInt])

end Kjson
namespace Kjson

mutual

theorem parse_value_good : ∀ (fuel : Nat) (bytes : List Nat) (v : Value) (rest : List Nat),
    parse_value bytes fuel = .ok (v, rest) → valueInv v = true ∧ valueNoUInt v = true
  | 0, bytes, v, rest, h => by simp [parse_value] at h
  | fuel + 1, bytes, v, rest, h => by
    simp only [parse_value] at h
    split at h
    · contradiction
    · split at h
      · exact parse_literal_good bytes v rest h
      · split at h
        · exact parse_string_good bytes fuel v rest h
        · split at h
          · exact parse_array_good fuel bytes v rest h
          · split at h
            · exact parse_object_good fuel bytes v rest h
            · exact parse_number_good bytes v rest h

theorem parse_array_good : ∀ (fuel : Nat) (bytes : List Nat) (v : Value) (rest : List Nat),
    parse_array bytes fuel = .ok (v, rest) → valueInv v = true ∧ valueNoUInt v = true
  | 0, bytes, v, rest, h => by simp [parse_array] at h
  | fuel + 1, bytes, v, rest, h => by
    simp only [parse_array] at h
    repeat' split at h
    · contradiction
    · contradiction
    · contradiction
    · simp only [PResult.ok.injEq, Prod.mk.injEq] at h
      obtain ⟨rfl, rfl⟩ := h
      simp [valueInv, valueNoUInt, valueListInv, listNoUInt]
    · exact parse_array_loop_good fuel _ [] v rest rfl rfl h

theorem parse_array_loop_good :
    ∀ (fuel : Nat) (bytes : List Nat) (arr : List Value) (v : Value) (rest : List Nat),
      valueListInv arr = true → listNoUInt arr = true →
      parse_array_loop bytes arr fuel = .ok (v, rest) →
      valueInv v = true ∧ valueNoUInt v = true
  | 0, bytes, arr, v, rest, _, _, h => by simp [parse_array_loop] at h
  | fuel + 1, bytes, arr, v, rest, hinv, hnou, h => by
    simp only [parse_array_loop] at h
    split at h
    · contradiction
    · contradiction
    · contradiction
    · rename_i v1 bytes1 heq
      have hv1 := parse_value_good fuel bytes v1 bytes1 heq
      split at h
      · contradiction
      · split at h
        · exact parse_array_loop_good fuel _ (arr ++ [v1]) v rest
            (by simp [valueListInv_append, valueListInv, hinv, hv1.1])
            (by simp [listNoUInt_append, listNoUInt, hnou, hv1.2]) h
        · split at h
          · simp only [PResult.ok.injEq, Prod.mk.injEq] at h
            obtain ⟨rfl, rfl⟩ := h
            constructor
            · simp only [valueInv, valueListInv_append]
              simp [valueListInv, hinv, hv1.1]
            · simp only [valueNoUInt, listNoUInt_append]
              simp [listNoUInt, hnou, hv1.2]
          · contradiction

theorem parse_object_good : ∀ (fuel : Nat) (bytes : List Nat) (v : Value) (rest : List Nat),
    parse_object bytes fuel = .ok (v, rest) → valueInv v = true ∧ valueNoUInt v = true
  | 0, bytes, v, rest, h => by simp [parse_object] at h
  | fuel + 1, bytes, v, rest, h => by
    simp only [parse_object] at h
    repeat' split at h
    · contradiction
    · contradiction
    · contradiction
    · simp only [PResult.ok.injEq, Prod.mk.injEq] at h
      obtain ⟨rfl, rfl⟩ := h
      simp [valueInv, valueNoUInt, keysSorted, entriesInv, entriesNoUInt]
    · exact parse_object_loop_good fuel _ [] v rest rfl rfl rfl h

theorem parse_object_loop_good :
    ∀ (fuel : Nat) (bytes : List Nat) (object : List (List Nat × Value))
      (v : Value) (rest : List Nat),
      keysSorted object = true → entriesInv object = true → entriesNoUInt object = true →
      parse_object_loop bytes object fuel = .ok (v, rest) →
      valueInv v = true ∧ valueNoUInt v = true
  | 0, bytes, object, v, rest, _, _, _, h => by simp [parse_object_loop] at h
  | fuel + 1, bytes, object, v, rest, hs, hei, hen, h => by
    simp only [parse_object_loop] at h
    split at h
    · contradiction
    · contradiction
    · contradiction
    · rename_i key bytes1 hkeq
      split at h
      · rename_i bytes3
        split at h
        · contradiction
        · contradiction
        · contradiction
        · rename_i v1 bytes5 hveq
          have hv1 := parse_value_good fuel _ v1 bytes5 hveq
          have hs2 := dictInsert_keysSorted key v1 object hs
          have hei2 := dictInsert_entriesInv key v1 hv1.1 object hei
          have hen2 := dictInsert_entriesNoUInt key v1 hv1.2 object hen
          split at h
          · exact parse_object_loop_good fuel _ (dictInsert object key v1) v rest
              hs2 hei2 hen2 h
          · simp only [PResult.ok.injEq, Prod.mk.injEq] at h
            obtain ⟨rfl, rfl⟩ := h
            constructor
            · simp [valueInv, hs2, hei2]
            · simp [valueNoUInt, hen2]
          · contradiction
      · contradiction

end

end Kjson
namespace Kjson

theorem parse_slice_good (bytes : List Nat) (fuel : Nat) (v : Value)
    (h : parse_slice bytes fuel = .ok v) : valueInv v = true ∧ valueNoUInt v = true := by
  simp only [parse_slice] at h
  split at h
  · rename_i v1 bytes1 heq
    split at h
    · simp only [PResult.ok.injEq] at h
      subst h
      exact parse_value_good fuel _ v1 bytes1 heq
    · contradiction
  · contradiction
  · contradiction
  · contradiction

/-- C8: object canonicalization. (a) Every `Object` anywhere inside a value
built by `parse_slice` satisfies `valueInv`, whose object case demands
`keysSorted`: strictly increasing keys in byte-lexicographic order, hence
unique keys, in sorted iteration order. (b) `Dict::insert` (`dictInsert`)
keeps the key list sorted, maps the inserted key to the new value
(a duplicate key overwrites the prior value), and leaves every other key's
binding unchanged. (c) Concretely, parsing `{"b":1,"a":2}` yields the
key-sorted object and `to_text` renders it as `{"a":2,"b":1}`, and parsing
the duplicate-key text `{"a":1,"a":2}` keeps only the last value, rendered
as `{"a":2}`. -/
theorem object_canonicalization :
    (∀ (bytes : List Nat) (fuel : Nat) (v : Value),
        parse_slice bytes fuel = .ok v → valueInv v = true) ∧
    (∀ (d : List (List Nat × Value)) (k : List Nat) (v : Value),
        keysSorted d = true →
        keysSorted (dictInsert d k v) = true ∧
        dictFind (dictInsert d k v) k = some v ∧
        ∀ k2, k2 ≠ k → dictFind (dictInsert d k v) k2 = dictFind d k2) ∧
    parse_slice [123,34,98,34,58,49,44,34,97,34,58,50,125] 9 =
      .ok (.Object [([97], .Number (.Int 2)), ([98], .Number (.Int 1))]) ∧
    to_text (.Object [([97], .Number (.Int 2)), ([98], .Number (.Int 1))]) =
      [123,34,97,34,58,50,44,34,98,34,58,49,125] ∧
    parse_slice [123,34,97,34,58,49,44,34,97,34,58,50,125] 9 =
      .ok (.Object [([97], .Number (.Int 2))]) ∧
    to_text (.Object [([97], .Number (.Int 2))]) = [123,34,97,34,58,50,125] := by
  refine ⟨fun bytes fuel v h => (parse_slice_good bytes fuel v h).1,
    fun d k v hs => ⟨dictInsert_keysSorted k v d hs, dictFind_dictInsert_self k v d,
      fun k2 hne => dictFind_dictInsert_other k k2 v hne d⟩,
    rfl, rfl, rfl, rfl⟩

/-- Witness for `object_canonicalization`: the universally quantified parts
applied at the parse of `{"b":1,"a":2}` and at inserting key `"a"` into the
singleton dictionary holding key `"b"`. -/
theorem object_canonicalization_witness :
    valueInv (Value.Object
      [([97], Value.Number (.Int 2)), ([98], Value.Number (.Int 1))]) = true ∧
    keysSorted (dictInsert [([98], Value.Number (.Int 1))] [97]
      (Value.Number (.Int 2))) = true ∧
    dictFind (dictInsert [([98], Value.Number (.Int 1))] [97]
      (Value.Number (.Int 2))) [97] = some (Value.Number (.Int 2)) ∧
    dictFind (dictInsert [([98], Value.Number (.Int 1))] [97]
      (Value.Number (.Int 2))) [98] = dictFind [([98], Value.Number (.Int 1))] [98] := by
  obtain ⟨h1, h2, h3⟩ := object_canonicalization.2.1 [([98], Value.Number (.Int 1))] [97]
    (Value.Number (.Int 2)) rfl
  exact ⟨object_canonicalization.1 [123,34,98,34,58,49,44,34,97,34,58,50,125] 9 _ rfl,
    h1, h2, h3 [98] (by decide)⟩

/-- C9: the parser never produces `Number::UInt`. Every value returned by
`parse_slice` satisfies `valueNoUInt`, which demands `numberOk` — `Int` or
`Float`, never `UInt` — of every number at every nesting depth; and `parse`
is definitionally `parse_slice` on the input's bytes. -/
theorem parser_never_produces_uint :
    (∀ (bytes : List Nat) (fuel : Nat) (v : Value),
        parse_slice bytes fuel = .ok v → valueNoUInt v = true) ∧
    (∀ (bytes : List Nat) (fuel : Nat), parse bytes fuel = parse_slice bytes fuel) := by
  exact ⟨fun bytes fuel v h => (parse_slice_good bytes fuel v h).2, fun _ _ => rfl⟩

/-- Witness for `parser_never_produces_uint`: applied at the parse of
`[1,2]`. -/
theorem parser_never_produces_uint_witness :
    valueNoUInt (Value.Array [Value.Number (.Int 1), Value.Number (.Int 2)]) = true ∧
    parse [91,49,44,50,93] 9 = parse_slice [91,49,44,50,93] 9 := by
  exact ⟨parser_never_produces_uint.1 [91,49,44,50,93] 9 _ rfl,
    parser_never_produces_uint.2 [91,49,44,50,93] 9⟩

end Kjson
